import Mathlib

/-!
A shallow embedding of `data_processing.py` from the
personalized-fashion-recommendations repository, together with proofs about
its two core algorithms: the cold-start-free train/test splitter
(`train_test_no_coldstart`) and the balanced negative-sampling labeler
(`get_labels_no_coldstart`).

Tables are modelled as lists of rows in original (ascending-time) order;
identifiers are opaque tokens modelled as natural numbers.  Raising
`ValueError` is modelled by `Option.none`.  numpy's seeded global random
state and pandas' seeded `DataFrame.sample` are modelled by an explicit
deterministic generator threaded through the computation.
-/

/-- A transaction row: the `customer_id` and `article_id` columns.
Identifiers are opaque hashable tokens; we model them as naturals. -/
structure Row where
  customer_id : Nat
  article_id : Nat
deriving DecidableEq, Repr

/-- Python slice `l[a:b]` for `0 ≤ a ≤ b` (as used by `DataFrame.iloc`). -/
def pySlice {α : Type} (l : List α) (a b : Nat) : List α := (l.drop a).take (b - a)

/-- The filter predicate of `train_test_no_coldstart`:
`isin(valid_customers) & isin(valid_articles)` where the valid sets are the
identifiers occurring in the training block. -/
def isValidFor (train : List Row) (r : Row) : Bool :=
  decide (r.customer_id ∈ train.map Row.customer_id) &&
  decide (r.article_id ∈ train.map Row.article_id)

/-- The training block attempted at a given `candidate_start`:
`transactions.iloc[candidate_start - 5*factor : candidate_start]`. -/
def trainAt (transactions : List Row) (factor candidate_start : Nat) : List Row :=
  pySlice transactions (candidate_start - 5 * factor) candidate_start

/-- `valid_test` at a given `candidate_start`: the candidate pool
`transactions.iloc[candidate_start:]` filtered to rows whose customer and
article both occur in the attempted training block. -/
def validTestAt (transactions : List Row) (factor candidate_start : Nat) : List Row :=
  (pySlice transactions candidate_start transactions.length).filter
    (isValidFor (trainAt transactions factor candidate_start))

/-- `test = valid_test.iloc[-factor:]`: the last `factor` rows of `valid_test`. -/
def testAt (transactions : List Row) (factor candidate_start : Nat) : List Row :=
  (validTestAt transactions factor candidate_start).drop
    ((validTestAt transactions factor candidate_start).length - factor)

/-- The `while candidate_start >= 5 * factor` loop of
`train_test_no_coldstart`, written with a fuel parameter so that the
definition is structural and executable.  `candidate_start` strictly
decreases at every iteration (for `factor > 0`), so fuel `candidate_start`
is always sufficient: with `candidate_start ≤ fuel` and `0 < factor` the
`fuel = 0` case coincides with the loop-guard failure of the source.  (For
`factor = 0` the Python loop never terminates; all claims below assume a
positive factor.) -/
def splitLoopF (transactions : List Row) (factor : Nat) :
    Nat → Nat → Option (List Row × List Row)
  | 0, _ => none
  | fuel + 1, candidate_start =>
    if 5 * factor ≤ candidate_start then
      if factor ≤ (validTestAt transactions factor candidate_start).length then
        some (trainAt transactions factor candidate_start,
              testAt transactions factor candidate_start)
      else
        splitLoopF transactions factor fuel (candidate_start - factor)
    else
      none

/-- `train_test_no_coldstart(transactions, factor)`.  `none` models the
`ValueError` raise.  The initial `candidate_start` is `n - factor` and also
serves as the loop fuel. -/
def train_test_no_coldstart (transactions : List Row) (factor : Nat) :
    Option (List Row × List Row) :=
  splitLoopF transactions factor (transactions.length - factor)
    (transactions.length - factor)

/-- The `candidate_start` values attempted by the loop, in order (mirrors
`splitLoopF`). -/
def splitAttemptsF (transactions : List Row) (factor : Nat) : Nat → Nat → List Nat
  | 0, _ => []
  | fuel + 1, candidate_start =>
    if 5 * factor ≤ candidate_start then
      if factor ≤ (validTestAt transactions factor candidate_start).length then
        [candidate_start]
      else
        candidate_start :: splitAttemptsF transactions factor fuel (candidate_start - factor)
    else
      []

/-- All `candidate_start` values attempted by `train_test_no_coldstart`. -/
def splitAttempts (transactions : List Row) (factor : Nat) : List Nat :=
  splitAttemptsF transactions factor (transactions.length - factor)
    (transactions.length - factor)

/-- A six-row table on one customer and one article: the smallest table on
which the splitter succeeds with `factor = 1` (used to evaluate the theorems
on a concrete input). -/
def ts6 : List Row := [⟨1, 1⟩, ⟨1, 1⟩, ⟨1, 1⟩, ⟨1, 1⟩, ⟨1, 1⟩, ⟨1, 1⟩]

/-- A table whose rows all carry distinct customers and articles, so that no
candidate window ever contains a valid test row and the splitter always
fails. -/
def diagRows (n : Nat) : List Row := (List.range n).map (fun i => ⟨i, i⟩)

/-- A labeled interaction row: `customer_id`, `article_id`, `label`. -/
structure LRow where
  customer_id : Nat
  article_id : Nat
  label : Nat
deriving DecidableEq, Repr

/-- Model of one step of numpy's global pseudo-random state (a 31-bit linear
congruential step).  The exact generator is irrelevant to every claim; what
matters is that it is a deterministic function of the previous state. -/
def np_lcg (g : Nat) : Nat := (g * 1103515245 + 12345) % (2 ^ 31)

/-- Model of `np.random.choice(l)`: advance the global state `g` and pick the
element it indexes.  Call sites guarantee `l` is non-empty. -/
def np_random_choice (g : Nat) (l : List Nat) : Nat × Nat :=
  (l.getD (np_lcg g % l.length) 0, np_lcg g)

/-- Model of uniform sampling of `k` rows without replacement from a
generator state `g`: repeatedly pick an index and remove that row.  Returns
exactly `k` rows whenever the list has at least `k`, never reusing a
position (hence never duplicating a row occurrence). -/
def sampleWOR {α : Type} (g : Nat) : List α → Nat → List α
  | _, 0 => []
  | [], _ + 1 => []
  | x :: xs, k + 1 =>
    (x :: xs).getD (np_lcg g % (xs.length + 1)) x ::
      sampleWOR (np_lcg g) ((x :: xs).eraseIdx (np_lcg g % (xs.length + 1))) k

/-- Model of `DataFrame.sample(n=k, random_state=rs)` threading numpy's
global state `g`: an integer seed yields a fresh deterministic generator
(the global state is untouched); `random_state=None` draws from — and
advances — the global state.  `sample(frac=1)` is the call with
`k = l.length`. -/
def pd_sample {α : Type} (random_state : Option Nat) (g : Nat) (l : List α) (k : Nat) :
    List α × Nat :=
  match random_state with
  | some s => (sampleWOR s l k, g)
  | none => (sampleWOR g l k, np_lcg g)

/-- The global random state right after the optional `np.random.seed`:
the supplied seed when there is one, the ambient pre-call state otherwise. -/
def np_seed_init (random_state : Option Nat) (ambient : Nat) : Nat :=
  match random_state with
  | some s => s
  | none => ambient

/-- `pos_df`: the input interactions with `label = 1`. -/
def pos_df (train_transactions : List Row) : List LRow :=
  train_transactions.map (fun r => ⟨r.customer_id, r.article_id, 1⟩)

/-- `user_to_articles[u]`: the articles customer `u` interacted with
(grouping the positives by customer). -/
def userArticles (train_transactions : List Row) (u : Nat) : List Nat :=
  (train_transactions.filter (fun r => decide (r.customer_id = u))).map Row.article_id

/-- `all_articles`: the distinct article identifiers seen in the input. -/
def all_articles (train_transactions : List Row) : List Nat :=
  (train_transactions.map Row.article_id).dedup

/-- The negative-generation loop of `get_labels_no_coldstart`: for every
positive row, the candidate negatives are the article universe minus the
customer's interacted set; if the candidates are non-empty one article is
drawn from the global random state, otherwise the row is skipped. -/
def negRowsLoop (articles : List Nat) (uArt : Nat → List Nat) :
    List LRow → Nat → List LRow × Nat
  | [], g => ([], g)
  | row :: rest, g =>
    let candidate_articles := articles.filter (fun a => decide (a ∉ uArt row.customer_id))
    if candidate_articles.isEmpty then
      negRowsLoop articles uArt rest g
    else
      (⟨row.customer_id, (np_random_choice g candidate_articles).1, 0⟩ ::
          (negRowsLoop articles uArt rest (np_random_choice g candidate_articles).2).1,
        (negRowsLoop articles uArt rest (np_random_choice g candidate_articles).2).2)

/-- `neg_df` (with the final global random state). -/
def neg_df (train_transactions : List Row) (g : Nat) : List LRow × Nat :=
  negRowsLoop (all_articles train_transactions) (userArticles train_transactions)
    (pos_df train_transactions) g

/-- `get_labels_no_coldstart(train_transactions, random_state)`.  `ambient`
is numpy's global random state before the call; `np.random.seed(random_state)`
replaces it when a seed is supplied. -/
def get_labels_no_coldstart (train_transactions : List Row) (random_state : Option Nat)
    (ambient : Nat) : List LRow :=
  let g0 := np_seed_init random_state ambient
  let posAll := pos_df train_transactions
  let negs := neg_df train_transactions g0
  let num_pos := posAll.length
  let num_neg := negs.1.length
  let posPair :=
    if num_neg < num_pos then pd_sample random_state negs.2 posAll num_neg
    else (posAll, negs.2)
  let negPair :=
    if num_pos < num_neg then pd_sample random_state posPair.2 negs.1 num_pos
    else (negs.1, posPair.2)
  let labeled_df := posPair.1 ++ negPair.1
  (pd_sample random_state negPair.2 labeled_df labeled_df.length).1

/-- `get_labels_no_coldstart` with the `elif num_pos < num_neg`
negative-downsampling branch removed.  The branch is unreachable, so the
source function is proved extensionally equal to this one. -/
def get_labels_no_coldstart_noNegSample (train_transactions : List Row)
    (random_state : Option Nat) (ambient : Nat) : List LRow :=
  let g0 := np_seed_init random_state ambient
  let posAll := pos_df train_transactions
  let negs := neg_df train_transactions g0
  let num_pos := posAll.length
  let num_neg := negs.1.length
  let posPair :=
    if num_neg < num_pos then pd_sample random_state negs.2 posAll num_neg
    else (posAll, negs.2)
  let labeled_df := posPair.1 ++ negs.1
  (pd_sample random_state posPair.2 labeled_df labeled_df.length).1

/-! ## Splitter: basic window facts -/

theorem pySlice_to_end {α : Type} (l : List α) (a : Nat) :
    pySlice l a l.length = l.drop a := by
  unfold pySlice
  exact List.take_of_length_le (by simp)

theorem length_trainAt {ts : List Row} {f cs : Nat} (h5 : 5 * f ≤ cs)
    (hn : cs ≤ ts.length) : (trainAt ts f cs).length = 5 * f := by
  unfold trainAt pySlice
  simp only [List.length_take, List.length_drop]
  omega

theorem length_testAt {ts : List Row} {f cs : Nat}
    (h : f ≤ (validTestAt ts f cs).length) : (testAt ts f cs).length = f := by
  unfold testAt
  simp only [List.length_drop]
  omega

theorem mem_testAt {ts : List Row} {f cs : Nat} {r : Row} (h : r ∈ testAt ts f cs) :
    r ∈ validTestAt ts f cs := List.mem_of_mem_drop h

theorem mem_validTestAt {ts : List Row} {f cs : Nat} {r : Row}
    (h : r ∈ validTestAt ts f cs) :
    r.customer_id ∈ (trainAt ts f cs).map Row.customer_id ∧
    r.article_id ∈ (trainAt ts f cs).map Row.article_id := by
  unfold validTestAt at h
  have h2 := (List.mem_filter.mp h).2
  unfold isValidFor at h2
  simpa using h2

/-- Characterization of a successful loop run: the returned pair comes from
the first window (some `w` not above the starting `candidate_start`) whose
valid-test pool holds at least `factor` rows. -/
theorem splitLoopF_some {ts : List Row} {f : Nat} :
    ∀ {fuel cs : Nat} {tr te : List Row},
      splitLoopF ts f fuel cs = some (tr, te) →
      ∃ w, w ≤ cs ∧ 5 * f ≤ w ∧ f ≤ (validTestAt ts f w).length ∧
        tr = trainAt ts f w ∧ te = testAt ts f w := by
  intro fuel
  induction fuel with
  | zero => intro cs tr te h; simp [splitLoopF] at h
  | succ fuel ih =>
    intro cs tr te h
    simp only [splitLoopF] at h
    by_cases hg : 5 * f ≤ cs
    · rw [if_pos hg] at h
      by_cases hs : f ≤ (validTestAt ts f cs).length
      · rw [if_pos hs] at h
        have hp := Option.some.inj h
        exact ⟨cs, Nat.le_refl _, hg, hs,
          (congrArg Prod.fst hp).symm, (congrArg Prod.snd hp).symm⟩
      · rw [if_neg hs] at h
        obtain ⟨w, hw, h5, hv, htr, hte⟩ := ih h
        exact ⟨w, Nat.le_trans hw (Nat.sub_le _ _), h5, hv, htr, hte⟩
    · rw [if_neg hg] at h
      exact absurd h (by simp)

theorem train_test_some {ts : List Row} {f : Nat} {tr te : List Row}
    (h : train_test_no_coldstart ts f = some (tr, te)) :
    ∃ w, w ≤ ts.length - f ∧ 5 * f ≤ w ∧ f ≤ (validTestAt ts f w).length ∧
      tr = trainAt ts f w ∧ te = testAt ts f w :=
  splitLoopF_some h

theorem split_lengths {ts : List Row} {f : Nat} {tr te : List Row}
    (h : train_test_no_coldstart ts f = some (tr, te)) :
    tr.length = 5 * f ∧ te.length = f := by
  obtain ⟨w, hw, h5, hv, rfl, rfl⟩ := train_test_some h
  exact ⟨length_trainAt h5 (by omega), length_testAt hv⟩

/-- C1: for every ascending-ordered transaction table and positive factor,
whenever `train_test_no_coldstart` returns `(train, test)`, every row of
`test` has its `customer_id` among the customer identifiers of `train` and
its `article_id` among the article identifiers of `train`. -/
theorem claim_C1 (ts : List Row) (f : Nat) (tr te : List Row) (hf : 0 < f)
    (h : train_test_no_coldstart ts f = some (tr, te)) :
    ∀ r ∈ te, r.customer_id ∈ tr.map Row.customer_id ∧
      r.article_id ∈ tr.map Row.article_id := by
  obtain ⟨w, hw, h5, hv, rfl, rfl⟩ := train_test_some h
  exact fun r hr => mem_validTestAt (mem_testAt hr)

theorem claim_C1_witness :
    0 < 1 ∧
    train_test_no_coldstart ts6 1 =
      some ([⟨1, 1⟩, ⟨1, 1⟩, ⟨1, 1⟩, ⟨1, 1⟩, ⟨1, 1⟩], [⟨1, 1⟩]) ∧
    ∀ r ∈ ([⟨1, 1⟩] : List Row),
      r.customer_id ∈ ([⟨1, 1⟩, ⟨1, 1⟩, ⟨1, 1⟩, ⟨1, 1⟩, ⟨1, 1⟩] : List Row).map Row.customer_id ∧
      r.article_id ∈ ([⟨1, 1⟩, ⟨1, 1⟩, ⟨1, 1⟩, ⟨1, 1⟩, ⟨1, 1⟩] : List Row).map Row.article_id :=
  ⟨Nat.one_pos, by decide, claim_C1 ts6 1 _ _ Nat.one_pos (by decide)⟩

/-- C3: whenever `train_test_no_coldstart` returns `(train, test)` for a
positive factor, `train` has exactly `5 * factor` rows and `test` exactly
`factor` rows. -/
theorem claim_C3 (ts : List Row) (f : Nat) (tr te : List Row) (hf : 0 < f)
    (h : train_test_no_coldstart ts f = some (tr, te)) :
    tr.length = 5 * f ∧ te.length = f :=
  split_lengths h

theorem claim_C3_witness :
    0 < 1 ∧
    train_test_no_coldstart ts6 1 =
      some ([⟨1, 1⟩, ⟨1, 1⟩, ⟨1, 1⟩, ⟨1, 1⟩, ⟨1, 1⟩], [⟨1, 1⟩]) ∧
    ([⟨1, 1⟩, ⟨1, 1⟩, ⟨1, 1⟩, ⟨1, 1⟩, ⟨1, 1⟩] : List Row).length = 5 * 1 ∧
    ([⟨1, 1⟩] : List Row).length = 1 :=
  ⟨Nat.one_pos, by decide, claim_C3 ts6 1 _ _ Nat.one_pos (by decide)⟩

/-! ## Splitter: failure behaviour -/

theorem splitAttemptsF_nil {ts : List Row} {f : Nat} {fuel cs : Nat}
    (h : ¬ 5 * f ≤ cs) : splitAttemptsF ts f fuel cs = [] := by
  cases fuel with
  | zero => simp [splitAttemptsF]
  | succ fuel => simp [splitAttemptsF, h]

/-- The loop raises exactly when every attempted candidate window yields
fewer than `factor` valid rows. -/
theorem splitLoopF_none_iff {ts : List Row} {f : Nat} :
    ∀ fuel cs, (splitLoopF ts f fuel cs = none ↔
      ∀ c ∈ splitAttemptsF ts f fuel cs, (validTestAt ts f c).length < f) := by
  intro fuel
  induction fuel with
  | zero => intro cs; simp [splitLoopF, splitAttemptsF]
  | succ fuel ih =>
    intro cs
    simp only [splitLoopF, splitAttemptsF]
    by_cases hg : 5 * f ≤ cs
    · rw [if_pos hg, if_pos hg]
      by_cases hs : f ≤ (validTestAt ts f cs).length
      · rw [if_pos hs, if_pos hs]
        constructor
        · intro h; exact absurd h (by simp)
        · intro h
          exact absurd (h cs (List.mem_singleton.mpr rfl)) (by omega)
      · rw [if_neg hs, if_neg hs]
        constructor
        · intro h c hc
          rcases List.mem_cons.mp hc with hceq | hcm
          · subst hceq; omega
          · exact ((ih (cs - f)).mp h) c hcm
        · intro h
          exact (ih (cs - f)).mpr (fun c hc => h c (List.mem_cons_of_mem _ hc))
    · rw [if_neg hg, if_neg hg]
      simp

/-- C4: `train_test_no_coldstart` fails (raises `ValueError`, modelled by
`none`) exactly when no attempted candidate window yields at least `factor`
valid test rows; in particular it fails whenever the table has fewer than
`5*factor + factor` rows; and a returned test set is never shorter than
`factor` rows. -/
theorem claim_C4 (ts : List Row) (f : Nat) (hf : 0 < f) :
    (train_test_no_coldstart ts f = none ↔
      ∀ c ∈ splitAttempts ts f, (validTestAt ts f c).length < f) ∧
    (ts.length < 5 * f + f → train_test_no_coldstart ts f = none) ∧
    (∀ tr te, train_test_no_coldstart ts f = some (tr, te) → f ≤ te.length) := by
  refine ⟨splitLoopF_none_iff _ _, ?_, ?_⟩
  · intro hn
    apply (splitLoopF_none_iff _ _).mpr
    have h0 : splitAttemptsF ts f (ts.length - f) (ts.length - f) = [] :=
      splitAttemptsF_nil (by omega)
    rw [h0]
    simp
  · intro tr te h
    exact Nat.le_of_eq (split_lengths h).2.symm

theorem claim_C4_witness :
    0 < 1 ∧
    ((train_test_no_coldstart ts6 1 = none ↔
      ∀ c ∈ splitAttempts ts6 1, (validTestAt ts6 1 c).length < 1) ∧
    (ts6.length < 5 * 1 + 1 → train_test_no_coldstart ts6 1 = none) ∧
    (∀ tr te, train_test_no_coldstart ts6 1 = some (tr, te) → 1 ≤ te.length)) :=
  ⟨Nat.one_pos, claim_C4 ts6 1 Nat.one_pos⟩

/-! ## Splitter: the last attempted window (C9) -/

/-- When the loop exhausts its search from a window at or beyond `5*factor`,
the last `candidate_start` attempted is `5*factor` plus the residue of the
remaining history modulo `factor` (it equals `5*factor` only when `factor`
divides the initial `candidate_start - 5*factor`). -/
theorem splitAttemptsF_getLast {ts : List Row} {f : Nat} (hf : 0 < f) :
    ∀ {fuel cs : Nat}, cs ≤ fuel → 5 * f ≤ cs →
      splitLoopF ts f fuel cs = none →
      (splitAttemptsF ts f fuel cs).getLast? = some (5 * f + (cs - 5 * f) % f) := by
  intro fuel
  induction fuel with
  | zero => intro cs hcs h5 _; omega
  | succ fuel ih =>
    intro cs hcs h5 hnone
    simp only [splitLoopF] at hnone
    simp only [splitAttemptsF]
    rw [if_pos h5] at hnone ⊢
    by_cases hs : f ≤ (validTestAt ts f cs).length
    · rw [if_pos hs] at hnone
      exact absurd hnone (by simp)
    · rw [if_neg hs] at hnone ⊢
      by_cases h5m : 5 * f ≤ cs - f
      · have hrec := ih (by omega) h5m hnone
        rcases hr : splitAttemptsF ts f fuel (cs - f) with _ | ⟨a, rest⟩
        · rw [hr] at hrec; exact absurd hrec (by simp)
        · rw [hr] at hrec
          rw [List.getLast?_cons_cons, hrec]
          have hx : cs - 5 * f = f + (cs - f - 5 * f) := by omega
          rw [hx, Nat.add_mod_left]
      · rw [splitAttemptsF_nil h5m]
        have hm : (cs - 5 * f) % f = cs - 5 * f := Nat.mod_eq_of_lt (by omega)
        have hc : 5 * f + (cs - 5 * f) % f = cs := by omega
        rw [hc]
        rfl

/-- C9 (amended): on a table of length `n ≥ 6*factor` on which the search
exhausts and fails, the last attempted `candidate_start` is
`5*factor + (n - 5*factor) % factor` — equal to `5*factor` exactly when
`factor` divides `n`, but not in general. -/
theorem claim_C9 (ts : List Row) (f : Nat) (hf : 0 < f)
    (hn : 5 * f + f ≤ ts.length)
    (hfail : train_test_no_coldstart ts f = none) :
    (splitAttempts ts f).getLast? = some (5 * f + (ts.length - 5 * f) % f) := by
  have h5 : 5 * f ≤ ts.length - f := by omega
  have h := splitAttemptsF_getLast hf (Nat.le_refl _) h5 hfail
  unfold splitAttempts
  rw [h]
  have hx : ts.length - 5 * f = f + (ts.length - f - 5 * f) := by omega
  rw [hx, Nat.add_mod_left]

/-- C9 as frozen is false on the code: for the 13-row all-distinct table with
`factor = 2` the search fails, `13 ≥ 6*2`, yet the last attempted
`candidate_start` is `11`, not `5*2 = 10`. -/
theorem claim_C9_counterexample :
    0 < 2 ∧ 5 * 2 + 2 ≤ (diagRows 13).length ∧
    train_test_no_coldstart (diagRows 13) 2 = none ∧
    (splitAttempts (diagRows 13) 2).getLast? = some 11 ∧
    ¬ (splitAttempts (diagRows 13) 2).getLast? = some (5 * 2) :=
  ⟨by decide, by decide, by decide, by decide, by decide⟩

theorem claim_C9_witness :
    0 < 2 ∧ 5 * 2 + 2 ≤ (diagRows 13).length ∧
    train_test_no_coldstart (diagRows 13) 2 = none ∧
    (splitAttempts (diagRows 13) 2).getLast? =
      some (5 * 2 + ((diagRows 13).length - 5 * 2) % 2) :=
  ⟨by decide, by decide, by decide,
    claim_C9 (diagRows 13) 2 (by decide) (by decide) (by decide)⟩

/-! ## Splitter: original-table positions (C5, C8) -/

theorem enum_pairwise_fst_lt {α : Type} (l : List α) :
    l.enum.Pairwise (fun p q => p.1 < q.1) := by
  rw [List.pairwise_iff_getElem]
  intro i j hi hj hij
  simp only [List.getElem_enum]
  exact hij

theorem map_snd_filter_snd {α : Type} (p : α → Bool) (l : List (Nat × α)) :
    (l.filter (fun q => p q.2)).map Prod.snd = (l.map Prod.snd).filter p := by
  induction l with
  | nil => rfl
  | cons x xs ih =>
    by_cases hp : p x.2
    · simp [List.filter_cons, hp, ih]
    · simp [List.filter_cons, hp, ih]

theorem validTestAt_eq_filter_drop (ts : List Row) (f w : Nat) :
    validTestAt ts f w = (ts.drop w).filter (isValidFor (trainAt ts f w)) := by
  unfold validTestAt
  rw [pySlice_to_end]

theorem map_snd_enumFilter (ts : List Row) (f w : Nat) :
    ((ts.enum.drop w).filter (fun q => isValidFor (trainAt ts f w) q.2)).map Prod.snd
      = validTestAt ts f w := by
  rw [map_snd_filter_snd, List.map_drop, List.enum_map_snd, validTestAt_eq_filter_drop]

theorem mem_enum_slice_bounds {α : Type} {l : List α} {a b : Nat} {p : Nat × α}
    (hp : p ∈ pySlice l.enum a b) : a ≤ p.1 ∧ p.1 < a + (b - a) := by
  unfold pySlice at hp
  obtain ⟨i, hi, hget⟩ := List.mem_iff_getElem.mp hp
  have hib : i < b - a := by
    simp only [List.length_take, List.length_drop] at hi
    omega
  simp only [List.getElem_take, List.getElem_drop, List.getElem_enum] at hget
  have hp1 : p.1 = a + i := by rw [← hget]
  omega

theorem mem_enum_drop_le {α : Type} {l : List α} {a : Nat} {p : Nat × α}
    (hp : p ∈ l.enum.drop a) : a ≤ p.1 := by
  obtain ⟨i, hi, hget⟩ := List.mem_iff_getElem.mp hp
  simp only [List.getElem_drop, List.getElem_enum] at hget
  have hp1 : p.1 = a + i := by rw [← hget]
  omega

/-- C5: the returned test set consists of the chronologically latest valid
rows of the discovered candidate pool: indexing the table by original
position, the valid rows of the pool split as `ex ++ inc` where `inc`
projects to `test` and every excluded valid row's position is strictly
below every included one's. -/
theorem claim_C5 (ts : List Row) (f : Nat) (tr te : List Row) (hf : 0 < f)
    (h : train_test_no_coldstart ts f = some (tr, te)) :
    ∃ (w : Nat) (ex inc : List (Nat × Row)),
      5 * f ≤ w ∧ tr = trainAt ts f w ∧ f ≤ (validTestAt ts f w).length ∧
      (ts.enum.drop w).filter (fun q => isValidFor tr q.2) = ex ++ inc ∧
      inc.map Prod.snd = te ∧
      ∀ p ∈ ex, ∀ q ∈ inc, p.1 < q.1 := by
  obtain ⟨w, hw, h5, hv, htr, hte⟩ := train_test_some h
  subst htr
  subst hte
  have hm : ((ts.enum.drop w).filter
      (fun q => isValidFor (trainAt ts f w) q.2)).map Prod.snd = validTestAt ts f w :=
    map_snd_enumFilter ts f w
  set V := (ts.enum.drop w).filter (fun q => isValidFor (trainAt ts f w) q.2) with hV
  have hL : V.length = (validTestAt ts f w).length := by
    rw [← hm, List.length_map]
  refine ⟨w, V.take (V.length - f), V.drop (V.length - f), h5, rfl, hv,
    (List.take_append_drop _ _).symm, ?_, ?_⟩
  · rw [List.map_drop, hm, hL]
    rfl
  · have hpw : V.Pairwise (fun p q => p.1 < q.1) :=
      List.Pairwise.sublist ((List.filter_sublist _).trans (List.drop_sublist _ _))
        (enum_pairwise_fst_lt ts)
    have hsplit : (V.take (V.length - f) ++ V.drop (V.length - f)).Pairwise
        (fun p q => p.1 < q.1) := by
      rw [List.take_append_drop]
      exact hpw
    exact (List.pairwise_append.mp hsplit).2.2

theorem claim_C5_witness :
    0 < 1 ∧
    train_test_no_coldstart ts6 1 =
      some ([⟨1, 1⟩, ⟨1, 1⟩, ⟨1, 1⟩, ⟨1, 1⟩, ⟨1, 1⟩], [⟨1, 1⟩]) ∧
    (∃ (w : Nat) (ex inc : List (Nat × Row)),
      5 * 1 ≤ w ∧
      ([⟨1, 1⟩, ⟨1, 1⟩, ⟨1, 1⟩, ⟨1, 1⟩, ⟨1, 1⟩] : List Row) = trainAt ts6 1 w ∧
      1 ≤ (validTestAt ts6 1 w).length ∧
      (ts6.enum.drop w).filter
        (fun q => isValidFor [⟨1, 1⟩, ⟨1, 1⟩, ⟨1, 1⟩, ⟨1, 1⟩, ⟨1, 1⟩] q.2) = ex ++ inc ∧
      inc.map Prod.snd = [⟨1, 1⟩] ∧
      ∀ p ∈ ex, ∀ q ∈ inc, p.1 < q.1) :=
  ⟨Nat.one_pos, by decide, claim_C5 ts6 1 _ _ Nat.one_pos (by decide)⟩

/-- C8: both returned tables are position-indexed restrictions of the
original table in ascending original order (sublists of the indexed table),
and every train position is strictly below every test position. -/
theorem claim_C8 (ts : List Row) (f : Nat) (tr te : List Row) (hf : 0 < f)
    (h : train_test_no_coldstart ts f = some (tr, te)) :
    ∃ trIdx teIdx : List (Nat × Row),
      trIdx.Sublist ts.enum ∧ teIdx.Sublist ts.enum ∧
      trIdx.map Prod.snd = tr ∧ teIdx.map Prod.snd = te ∧
      ∀ p ∈ trIdx, ∀ q ∈ teIdx, p.1 < q.1 := by
  obtain ⟨w, hw, h5, hv, htr, hte⟩ := train_test_some h
  subst htr
  subst hte
  have hm : ((ts.enum.drop w).filter
      (fun q => isValidFor (trainAt ts f w) q.2)).map Prod.snd = validTestAt ts f w :=
    map_snd_enumFilter ts f w
  set V := (ts.enum.drop w).filter (fun q => isValidFor (trainAt ts f w) q.2) with hV
  have hL : V.length = (validTestAt ts f w).length := by
    rw [← hm, List.length_map]
  refine ⟨pySlice ts.enum (w - 5 * f) w, V.drop (V.length - f),
    (List.take_sublist _ _).trans (List.drop_sublist _ _),
    ((List.drop_sublist _ _).trans (List.filter_sublist _)).trans (List.drop_sublist _ _),
    ?_, ?_, ?_⟩
  · unfold trainAt pySlice
    rw [List.map_take, List.map_drop, List.enum_map_snd]
  · rw [List.map_drop, hm, hL]
    rfl
  · intro p hp q hq
    have hpb := mem_enum_slice_bounds hp
    have hqV : q ∈ V := List.drop_subset _ _ hq
    have hq1 : w ≤ q.1 := mem_enum_drop_le ((List.filter_sublist _).subset hqV)
    omega

theorem claim_C8_witness :
    0 < 1 ∧
    train_test_no_coldstart ts6 1 =
      some ([⟨1, 1⟩, ⟨1, 1⟩, ⟨1, 1⟩, ⟨1, 1⟩, ⟨1, 1⟩], [⟨1, 1⟩]) ∧
    (∃ trIdx teIdx : List (Nat × Row),
      trIdx.Sublist ts6.enum ∧ teIdx.Sublist ts6.enum ∧
      trIdx.map Prod.snd = [⟨1, 1⟩, ⟨1, 1⟩, ⟨1, 1⟩, ⟨1, 1⟩, ⟨1, 1⟩] ∧
      teIdx.map Prod.snd = [⟨1, 1⟩] ∧
      ∀ p ∈ trIdx, ∀ q ∈ teIdx, p.1 < q.1) :=
  ⟨Nat.one_pos, by decide, claim_C8 ts6 1 _ _ Nat.one_pos (by decide)⟩

/-! ## Labeler: the negative-generation loop -/

theorem negRowsLoop_length_le (articles : List Nat) (uArt : Nat → List Nat) :
    ∀ (pos : List LRow) (g : Nat),
      (negRowsLoop articles uArt pos g).1.length ≤ pos.length := by
  intro pos
  induction pos with
  | nil => intro g; simp [negRowsLoop]
  | cons row rest ih =>
    intro g
    simp only [negRowsLoop]
    by_cases hc :
        (articles.filter (fun a => decide (a ∉ uArt row.customer_id))).isEmpty = true
    · rw [if_pos hc]
      exact Nat.le_succ_of_le (ih g)
    · rw [if_neg hc]
      exact Nat.succ_le_succ (ih _)

theorem negRowsLoop_mem (articles : List Nat) (uArt : Nat → List Nat) :
    ∀ (pos : List LRow) (g : Nat) (r : LRow),
      r ∈ (negRowsLoop articles uArt pos g).1 →
      r.label = 0 ∧ r.article_id ∈ articles ∧ r.article_id ∉ uArt r.customer_id := by
  intro pos
  induction pos with
  | nil => intro g r hr; simp [negRowsLoop] at hr
  | cons row rest ih =>
    intro g r hr
    simp only [negRowsLoop] at hr
    by_cases hc :
        (articles.filter (fun a => decide (a ∉ uArt row.customer_id))).isEmpty = true
    · rw [if_pos hc] at hr
      exact ih g r hr
    · rw [if_neg hc] at hr
      rcases List.mem_cons.mp hr with heq | hm
      · subst heq
        have hne : (articles.filter (fun a => decide (a ∉ uArt row.customer_id))) ≠ [] := by
          simpa [List.isEmpty_iff] using hc
        have hlen : 0 < (articles.filter
            (fun a => decide (a ∉ uArt row.customer_id))).length :=
          List.length_pos.mpr hne
        have hpick : (np_random_choice g (articles.filter
            (fun a => decide (a ∉ uArt row.customer_id)))).1 ∈
            articles.filter (fun a => decide (a ∉ uArt row.customer_id)) := by
          unfold np_random_choice
          rw [List.getD_eq_getElem _ _ (Nat.mod_lt _ hlen)]
          exact List.getElem_mem _
        have hsp := List.mem_filter.mp hpick
        exact ⟨rfl, hsp.1, by simpa using hsp.2⟩
      · exact ih _ r hm

theorem pos_df_label (t : List Row) : ∀ r ∈ pos_df t, r.label = 1 := by
  intro r hr
  obtain ⟨x, _hx, rfl⟩ := List.mem_map.mp hr
  rfl

/-! ## Labeler: sampling model facts -/

theorem sampleWOR_cons {α : Type} (g : Nat) (x : α) (xs : List α) (k : Nat) :
    sampleWOR g (x :: xs) (k + 1) =
      (x :: xs).getD (np_lcg g % (xs.length + 1)) x ::
        sampleWOR (np_lcg g) ((x :: xs).eraseIdx (np_lcg g % (xs.length + 1))) k := rfl

theorem sampleWOR_length {α : Type} :
    ∀ (k : Nat) (l : List α) (g : Nat), k ≤ l.length → (sampleWOR g l k).length = k := by
  intro k
  induction k with
  | zero => intro l g _; cases l <;> rfl
  | succ k ih =>
    intro l g hk
    cases l with
    | nil => simp at hk
    | cons x xs =>
      have hidx : np_lcg g % (xs.length + 1) < (x :: xs).length :=
        Nat.mod_lt _ (Nat.succ_pos xs.length)
      have hlen : ((x :: xs).eraseIdx (np_lcg g % (xs.length + 1))).length = xs.length := by
        rw [List.length_eraseIdx_of_lt hidx]
        rfl
      rw [sampleWOR_cons, List.length_cons,
        ih _ _ (by rw [hlen]; exact Nat.le_of_succ_le_succ hk)]

theorem sampleWOR_subset {α : Type} :
    ∀ (k : Nat) (l : List α) (g : Nat) (x : α), x ∈ sampleWOR g l k → x ∈ l := by
  intro k
  induction k with
  | zero =>
    intro l g x hx
    have h0 : sampleWOR g l 0 = [] := by cases l <;> rfl
    rw [h0] at hx
    simp at hx
  | succ k ih =>
    intro l g x hx
    cases l with
    | nil => exact absurd hx (by intro hxx; exact (List.not_mem_nil x) hxx)
    | cons y ys =>
      rw [sampleWOR_cons] at hx
      have hidx : np_lcg g % (ys.length + 1) < (y :: ys).length :=
        Nat.mod_lt _ (Nat.succ_pos ys.length)
      rcases List.mem_cons.mp hx with heq | hm
      · rw [heq, List.getD_eq_getElem _ _ hidx]
        exact List.getElem_mem _
      · exact (List.eraseIdx_sublist _ _).subset (ih _ _ _ hm)

theorem getD_cons_eraseIdx_perm {α : Type} {l : List α} {i : Nat} (d : α)
    (hi : i < l.length) : (l.getD i d :: l.eraseIdx i).Perm l := by
  rw [List.getD_eq_getElem _ _ hi, List.eraseIdx_eq_take_drop_succ]
  have h1 : (l[i] :: (l.take i ++ l.drop (i + 1))).Perm
      (l.take i ++ l[i] :: l.drop (i + 1)) := List.perm_middle.symm
  rw [List.getElem_cons_drop, List.take_append_drop] at h1
  exact h1

theorem sampleWOR_perm {α : Type} :
    ∀ (k : Nat) (l : List α) (g : Nat), l.length = k → (sampleWOR g l k).Perm l := by
  intro k
  induction k with
  | zero =>
    intro l g hl
    rw [List.length_eq_zero] at hl
    subst hl
    exact List.Perm.nil
  | succ k ih =>
    intro l g hl
    cases l with
    | nil => simp at hl
    | cons x xs =>
      have hidx : np_lcg g % (xs.length + 1) < (x :: xs).length :=
        Nat.mod_lt _ (Nat.succ_pos xs.length)
      have hlen : ((x :: xs).eraseIdx (np_lcg g % (xs.length + 1))).length = k := by
        rw [List.length_eraseIdx_of_lt hidx]
        simpa using hl
      have hrec := ih _ (np_lcg g) hlen
      exact (List.Perm.cons _ hrec).trans (getD_cons_eraseIdx_perm x hidx)

theorem pd_sample_fst_length {α : Type} (rs : Option Nat) (g : Nat) (l : List α)
    (k : Nat) (hk : k ≤ l.length) : (pd_sample rs g l k).1.length = k := by
  cases rs with
  | some s => exact sampleWOR_length k l s hk
  | none => exact sampleWOR_length k l g hk

theorem pd_sample_fst_subset {α : Type} (rs : Option Nat) (g : Nat) (l : List α)
    (k : Nat) : ∀ x ∈ (pd_sample rs g l k).1, x ∈ l := by
  cases rs with
  | some s => exact fun x hx => sampleWOR_subset k l s x hx
  | none => exact fun x hx => sampleWOR_subset k l g x hx

theorem pd_sample_shuffle_perm {α : Type} (rs : Option Nat) (g : Nat) (l : List α) :
    ((pd_sample rs g l l.length).1).Perm l := by
  cases rs with
  | some s => exact sampleWOR_perm l.length l s rfl
  | none => exact sampleWOR_perm l.length l g rfl

/-! ## Labeler: output structure and the claims -/

/-- Up to the final shuffle, the labeler output is a balanced concatenation
of positives (exact input copies, label 1) and generated negatives
(label 0, article drawn from the seen-article universe outside the
customer's interacted set). -/
theorem get_labels_decomp (t : List Row) (rs : Option Nat) (ambient : Nat) :
    ∃ posF negF : List LRow,
      (get_labels_no_coldstart t rs ambient).Perm (posF ++ negF) ∧
      posF.length = negF.length ∧
      (∀ r ∈ posF, r.label = 1) ∧
      (∀ r ∈ negF, r.label = 0 ∧ r.article_id ∈ all_articles t ∧
        r.article_id ∉ userArticles t r.customer_id) := by
  have hle : (neg_df t (np_seed_init rs ambient)).1.length ≤ (pos_df t).length :=
    negRowsLoop_length_le _ _ _ _
  have hnegmem : ∀ r ∈ (neg_df t (np_seed_init rs ambient)).1,
      r.label = 0 ∧ r.article_id ∈ all_articles t ∧
        r.article_id ∉ userArticles t r.customer_id :=
    fun r hr => negRowsLoop_mem _ _ _ _ r hr
  simp only [get_labels_no_coldstart]
  by_cases hc : (neg_df t (np_seed_init rs ambient)).1.length < (pos_df t).length
  · rw [if_pos hc, if_neg (by omega :
      ¬ (pos_df t).length < (neg_df t (np_seed_init rs ambient)).1.length)]
    refine ⟨(pd_sample rs (neg_df t (np_seed_init rs ambient)).2 (pos_df t)
        (neg_df t (np_seed_init rs ambient)).1.length).1,
      (neg_df t (np_seed_init rs ambient)).1,
      pd_sample_shuffle_perm _ _ _, ?_, ?_, hnegmem⟩
    · exact pd_sample_fst_length _ _ _ _ (Nat.le_of_lt hc)
    · intro r hr
      exact pos_df_label t r (pd_sample_fst_subset _ _ _ _ r hr)
  · rw [if_neg hc, if_neg (by omega :
      ¬ (pos_df t).length < (neg_df t (np_seed_init rs ambient)).1.length)]
    exact ⟨pos_df t, (neg_df t (np_seed_init rs ambient)).1,
      pd_sample_shuffle_perm _ _ _, by omega, pos_df_label t, hnegmem⟩

/-- C2: for every non-empty input table (any seed, any ambient random
state), the labeler output has exactly as many rows with `label = 1` as
rows with `label = 0`. -/
theorem claim_C2 (t : List Row) (rs : Option Nat) (ambient : Nat) (ht : t ≠ []) :
    (get_labels_no_coldstart t rs ambient).countP (fun r => decide (r.label = 1)) =
      (get_labels_no_coldstart t rs ambient).countP (fun r => decide (r.label = 0)) := by
  obtain ⟨posF, negF, hperm, hlen, hpos, hneg⟩ := get_labels_decomp t rs ambient
  rw [List.Perm.countP_eq (fun r => decide (r.label = 1)) hperm,
    List.Perm.countP_eq (fun r => decide (r.label = 0)) hperm,
    List.countP_append, List.countP_append]
  have h1 : posF.countP (fun r => decide (r.label = 1)) = posF.length :=
    List.countP_eq_length.mpr (fun a ha => by simp [hpos a ha])
  have h2 : negF.countP (fun r => decide (r.label = 1)) = 0 :=
    List.countP_eq_zero.mpr (fun a ha => by simp [(hneg a ha).1])
  have h3 : posF.countP (fun r => decide (r.label = 0)) = 0 :=
    List.countP_eq_zero.mpr (fun a ha => by simp [hpos a ha])
  have h4 : negF.countP (fun r => decide (r.label = 0)) = negF.length :=
    List.countP_eq_length.mpr (fun a ha => by simp [(hneg a ha).1])
  rw [h1, h2, h3, h4]
  omega

theorem claim_C2_witness :
    ([⟨1, 10⟩, ⟨2, 20⟩] : List Row) ≠ [] ∧
    (get_labels_no_coldstart [⟨1, 10⟩, ⟨2, 20⟩] (some 7) 0).countP
        (fun r => decide (r.label = 1)) =
      (get_labels_no_coldstart [⟨1, 10⟩, ⟨2, 20⟩] (some 7) 0).countP
        (fun r => decide (r.label = 0)) :=
  ⟨by decide, claim_C2 [⟨1, 10⟩, ⟨2, 20⟩] (some 7) 0 (by decide)⟩

/-- C6: every negative row of the labeler output pairs a customer with an
article the customer never interacted with in the input, drawn from the
articles observed in the input. -/
theorem claim_C6 (t : List Row) (rs : Option Nat) (ambient : Nat) (r : LRow)
    (hr : r ∈ get_labels_no_coldstart t rs ambient) (h0 : r.label = 0) :
    r.article_id ∉ userArticles t r.customer_id ∧
      r.article_id ∈ t.map Row.article_id := by
  obtain ⟨posF, negF, hperm, hlen, hpos, hneg⟩ := get_labels_decomp t rs ambient
  have hr2 : r ∈ posF ++ negF := hperm.subset hr
  rcases List.mem_append.mp hr2 with hp | hn
  · rw [hpos r hp] at h0
    exact absurd h0 (by decide)
  · obtain ⟨_hl0, ha, hna⟩ := hneg r hn
    refine ⟨hna, ?_⟩
    have hd : r.article_id ∈ (t.map Row.article_id).dedup := ha
    exact List.mem_dedup.mp hd

theorem claim_C6_witness :
    (⟨1, 20, 0⟩ : LRow) ∈ get_labels_no_coldstart [⟨1, 10⟩, ⟨2, 20⟩] (some 7) 0 ∧
    (⟨1, 20, 0⟩ : LRow).label = 0 ∧
    ((⟨1, 20, 0⟩ : LRow).article_id ∉
        userArticles [⟨1, 10⟩, ⟨2, 20⟩] (⟨1, 20, 0⟩ : LRow).customer_id ∧
      (⟨1, 20, 0⟩ : LRow).article_id ∈
        ([⟨1, 10⟩, ⟨2, 20⟩] : List Row).map Row.article_id) :=
  ⟨by decide, by decide,
    claim_C6 [⟨1, 10⟩, ⟨2, 20⟩] (some 7) 0 ⟨1, 20, 0⟩ (by decide) (by decide)⟩

/-- C7: with the same input and the same non-`None` seed, two labeler calls
produce identical output tables (the ambient pre-call random state is
irrelevant): the computation is a pure function of input and seed. -/
theorem claim_C7 (t : List Row) (s : Nat) (ambient1 ambient2 : Nat) :
    get_labels_no_coldstart t (some s) ambient1 =
      get_labels_no_coldstart t (some s) ambient2 := rfl

/-- C10: the labeler generates at most one negative per positive, so the
negative count never exceeds the positive count, and the branch that
downsamples the negative set is unreachable: the function equals its
variant with that branch removed (balancing only ever removes positive
rows or nothing). -/
theorem claim_C10 (t : List Row) (rs : Option Nat) (ambient g : Nat) :
    (neg_df t g).1.length ≤ (pos_df t).length ∧
      get_labels_no_coldstart t rs ambient =
        get_labels_no_coldstart_noNegSample t rs ambient := by
  refine ⟨negRowsLoop_length_le _ _ _ _, ?_⟩
  have hle : (neg_df t (np_seed_init rs ambient)).1.length ≤ (pos_df t).length :=
    negRowsLoop_length_le _ _ _ _
  simp only [get_labels_no_coldstart, get_labels_no_coldstart_noNegSample]
  rw [if_neg (by omega :
    ¬ (pos_df t).length < (neg_df t (np_seed_init rs ambient)).1.length)]
